import Mathlib

/-!
Shallow embedding of the family-care coordination backend
(`back-end-health-care`): the family-permission model, membership
state machine, notification dispatcher and reminder scheduler, as
implemented in `src/routes/appointment.routes.ts` (appointment, family
and notification routers), `src/services/notification.service.ts`,
`src/jobs/scheduler.ts` and `src/middlewares/auth.middleware.ts`.

Ids (users, memberships, parents, medications, subscriptions) are
modelled as `Nat`; timestamps as `Nat`; the relational store as lists
of rows.  Supabase query combinators are translated pointwise:
`.eq(...)` filters become boolean predicates, `.single()` becomes
`List.find?`, `update ... .eq('id', x)` becomes `List.map` guarded on
the id, `delete ... .eq('id', x)` becomes `List.filter`, and an
`insert` appends a row.
-/

namespace HealthCare

inductive Role where
  | admin
  | editor
  | viewer
deriving DecidableEq, Repr

inductive MemberStatus where
  | pending
  | active
  | inactive
deriving DecidableEq, Repr

inductive ApptStatus where
  | scheduled
  | completed
  | cancelled
  | missed
deriving DecidableEq, Repr

inductive NType where
  | medication
  | appointment
  | document
  | family
  | system
deriving DecidableEq, Repr

/-- The JSONB `permissions` column of `family_members`. -/
structure Permissions where
  can_view : Bool
  can_edit : Bool
  can_delete : Bool
deriving DecidableEq, Repr

/-- A row of the `family_members` table. -/
structure FamilyMember where
  id : Nat
  parent_id : Nat
  user_id : Nat
  role : Role
  permissions : Permissions
  status : MemberStatus
  invited_by : Nat
deriving DecidableEq, Repr

/-- A row of the `profiles` table (registered user). -/
structure Profile where
  id : Nat
  email : String
deriving DecidableEq, Repr

/-- A row of the `medications` table (the fields the reminder scan reads). -/
structure Medication where
  id : Nat
  parent_id : Nat
  name : String
  dosage : String
  is_active : Bool
  times : List String
deriving DecidableEq, Repr

/-- A row of the `appointments` table (the fields the status sweep reads). -/
structure Appointment where
  id : Nat
  parent_id : Nat
  scheduled_at : Nat
  status : ApptStatus
deriving DecidableEq, Repr

/-- A row of the `notifications` table (inserted by `createNotification`). -/
structure Notification where
  user_id : Nat
  ntype : NType
  title : String
  message : String
  is_read : Bool
deriving DecidableEq, Repr

/-- A row of the `push_subscriptions` table. -/
structure PushSub where
  id : Nat
  user_id : Nat
  endpoint : String
  is_active : Bool
deriving DecidableEq, Repr

/-! ## Time-of-day parsing

`sendMedicationReminders` does `time.split(':').map(Number)` and
destructures the first two components.  We model the JS split over the
character list of the string, and `Number` on a component as: a
non-empty all-digit string parses to its decimal value, anything else
is `NaN` (here `none`), which makes every later comparison false. -/

def splitOnChar (c : Char) (cs : List Char) : List (List Char) :=
  match cs with
  | [] => [[]]
  | x :: xs =>
    let rest := splitOnChar c xs
    if x = c then [] :: rest
    else
      match rest with
      | [] => [[x]]
      | r :: rs => (x :: r) :: rs

def digitsToNat? (cs : List Char) : Option Nat :=
  if cs.isEmpty then none
  else if cs.all (·.isDigit) then
    some (cs.foldl (fun acc c => acc * 10 + (c.toNat - Char.toNat '0')) 0)
  else none

def parseTime (s : String) : Option (Nat × Nat) :=
  match splitOnChar ':' s.data with
  | h :: m :: _ =>
    match digitsToNat? h, digitsToNat? m with
    | some hh, some mm => some (hh, mm)
    | _, _ => none
  | _ => none

/-- The firing condition of the medication reminder scan, from
`notification.service.ts`:
`hour === currentHour && minute - currentMinute === 5`.
The subtraction is over the integers (JS numbers), so a scheduled
minute smaller than the current minute never matches. -/
def timeMatches (t : String) (currentHour currentMinute : Nat) : Bool :=
  match parseTime t with
  | some (h, m) => h == currentHour && ((m : Int) - (currentMinute : Int) == 5)
  | none => false

/-! ## Medication reminder scan

`NotificationService.sendMedicationReminders` loads all medications
with `is_active = true`, and for each scheduled time that matches the
firing condition it loads the family members of the medication's
care-recipient — filtered only by `parent_id`, with no status filter —
and calls `createNotification` once per member.  We record each such
call as a `ReminderNote`. -/

/-- One `createNotification` call issued by the medication reminder scan:
the addressee plus the context payload `{medication_id, parent_id,
scheduled_time}`. -/
structure ReminderNote where
  user_id : Nat
  medication_id : Nat
  parent_id : Nat
  scheduled_time : String
deriving DecidableEq, Repr

/-- The `createNotification` calls the scan issues for one medication
and one matching scheduled time: one per family-member row of the
medication's recipient (the query filters only on `parent_id`). -/
def famNotes (fams : List FamilyMember) (med : Medication) (t : String) : List ReminderNote :=
  (fams.filter fun fm => fm.parent_id == med.parent_id).map fun fm =>
    { user_id := fm.user_id
      medication_id := med.id
      parent_id := med.parent_id
      scheduled_time := t }

/-- All calls the scan issues for one medication: one batch per
scheduled time that matches the firing condition. -/
def medNotes (fams : List FamilyMember) (currentHour currentMinute : Nat)
    (med : Medication) : List ReminderNote :=
  (med.times.filter fun t => timeMatches t currentHour currentMinute).flatMap
    (famNotes fams med)

def sendMedicationReminders (meds : List Medication) (fams : List FamilyMember)
    (currentHour currentMinute : Nat) : List ReminderNote :=
  (meds.filter (·.is_active)).flatMap (medNotes fams currentHour currentMinute)

/-! ## Family membership state and operations

State for the family routes: `profiles` and `family_members` tables,
plus a fresh-id counter standing in for the database's generated
primary keys. -/

structure FamilyState where
  profiles : List Profile
  members : List FamilyMember
  nextId : Nat
deriving DecidableEq, Repr

inductive FamilyResult where
  | ok
  | notFound
  | notAuthorized
  | userNotFound
  | alreadyMember
  | invitePendingExists
  | cannotModifySelf
  | lastAdminProtected
  | notFoundOrInactive
deriving DecidableEq, Repr

/-- Default permission flags derived from the requested role when the
invite supplies none (`POST /api/family/invite`):
`{can_view: true, can_edit: role === 'editor' || role === 'admin',
can_delete: role === 'admin'}`. -/
def defaultPerms (role : Role) : Permissions :=
  { can_view := true
    can_edit := role == Role.editor || role == Role.admin
    can_delete := role == Role.admin }

/-- `POST /api/family/invite`.  The admin gate looks the inviter up by
`(parent_id, user_id)` with no status filter; the invited user must
exist in `profiles`; an existing membership for the pair rejects the
invite when its status is `active` or `pending`; otherwise a `pending`
membership is inserted. -/
def inviteMember (st : FamilyState) (actorId parentId : Nat) (email : String)
    (role : Role) (permOverride : Option Permissions) : FamilyResult × FamilyState :=
  match st.members.find? (fun m => m.parent_id == parentId && m.user_id == actorId) with
  | none => (.notAuthorized, st)
  | some inviter =>
    if inviter.role ≠ Role.admin then (.notAuthorized, st)
    else
      match st.profiles.find? (fun pr => pr.email == email) with
      | none => (.userNotFound, st)
      | some invitedUser =>
        let doInsert : FamilyResult × FamilyState :=
          (.ok,
            { st with
              members := st.members ++
                [{ id := st.nextId
                   parent_id := parentId
                   user_id := invitedUser.id
                   role := role
                   permissions := permOverride.getD (defaultPerms role)
                   status := MemberStatus.pending
                   invited_by := actorId }]
              nextId := st.nextId + 1 })
        match st.members.find? (fun m => m.parent_id == parentId && m.user_id == invitedUser.id) with
        | some existing =>
          if existing.status = MemberStatus.active then (.alreadyMember, st)
          else if existing.status = MemberStatus.pending then (.invitePendingExists, st)
          else doInsert
        | none => doInsert

/-- `POST /api/family/invites/:inviteId/accept`: the invite must belong
to the caller and be `pending`; on success the row is set `active`
(update keyed on the id alone). -/
def acceptInvite (st : FamilyState) (inviteId actorId : Nat) : FamilyResult × FamilyState :=
  match st.members.find?
      (fun m => m.id == inviteId && m.user_id == actorId && m.status == MemberStatus.pending) with
  | none => (.notFound, st)
  | some _ =>
    (.ok,
      { st with
        members := st.members.map fun m =>
          if m.id == inviteId then { m with status := MemberStatus.active } else m })

/-- `POST /api/family/invites/:inviteId/decline`: the invite must belong
to the caller and be `pending`; on success the row is deleted. -/
def declineInvite (st : FamilyState) (inviteId actorId : Nat) : FamilyResult × FamilyState :=
  match st.members.find?
      (fun m => m.id == inviteId && m.user_id == actorId && m.status == MemberStatus.pending) with
  | none => (.notFound, st)
  | some _ =>
    (.ok, { st with members := st.members.filter (fun m => !(m.id == inviteId)) })

/-- `PATCH /api/family/members/:memberId/permissions`: the actor is
looked up by `(parent_id, user_id)` with no status filter and must have
role `admin`; the actor may not target their own membership; role and
flags are overwritten when supplied. -/
def updatePermissions (st : FamilyState) (memberId actorId : Nat)
    (newRole : Option Role) (newPerms : Option Permissions) : FamilyResult × FamilyState :=
  match st.members.find? (fun m => m.id == memberId) with
  | none => (.notFound, st)
  | some member =>
    match st.members.find? (fun m => m.parent_id == member.parent_id && m.user_id == actorId) with
    | none => (.notAuthorized, st)
    | some adminCheck =>
      if adminCheck.role ≠ Role.admin then (.notAuthorized, st)
      else if member.user_id == actorId then (.cannotModifySelf, st)
      else
        (.ok,
          { st with
            members := st.members.map fun m =>
              if m.id == memberId then
                { m with
                  role := newRole.getD m.role
                  permissions := newPerms.getD m.permissions }
              else m })

/-- The authorization test of `DELETE /api/family/members/:memberId`:
self-removal, or an actor row for the pair whose role is `admin`
(status unfiltered). -/
def removeAuthorized (st : FamilyState) (member : FamilyMember) (actorId : Nat) : Bool :=
  (member.user_id == actorId) ||
    (match st.members.find?
        (fun m => m.parent_id == member.parent_id && m.user_id == actorId) with
     | some a => a.role == Role.admin
     | none => false)

/-- The row predicate of the `admins` guard query: active admin
membership of the given recipient. -/
def adminP (parentId : Nat) (m : FamilyMember) : Bool :=
  m.parent_id == parentId && m.role == Role.admin && m.status == MemberStatus.active

/-- The `admins` query of the removal guard: memberships of the
recipient with role `admin` and status `active`. -/
def activeAdmins (members : List FamilyMember) (parentId : Nat) : List FamilyMember :=
  members.filter (adminP parentId)

def activeAdminCount (st : FamilyState) (parentId : Nat) : Nat :=
  (activeAdmins st.members parentId).length

/-- `DELETE /api/family/members/:memberId`: requester must be the
member or an admin; when the target row's role is `admin` and the
recipient has exactly one active admin the removal is rejected;
otherwise the row is deleted. -/
def removeMember (st : FamilyState) (memberId actorId : Nat) : FamilyResult × FamilyState :=
  match st.members.find? (fun m => m.id == memberId) with
  | none => (.notFound, st)
  | some member =>
    if !(removeAuthorized st member actorId) then (.notAuthorized, st)
    else
      let doDelete : FamilyResult × FamilyState :=
        (.ok, { st with members := st.members.filter (fun m => !(m.id == memberId)) })
      if member.role = Role.admin then
        if (activeAdmins st.members member.parent_id).length == 1 then
          (.lastAdminProtected, st)
        else doDelete
      else doDelete

/-- `POST /api/family/members/:memberId/transfer-admin`: the target row
must exist and be `active`; the actor row (looked up by pair, status
unfiltered) must have role `admin`; then two sequential updates run:
first the target row is set to admin with all flags true, then the
actor's row is set to editor with `{view: true, edit: true,
delete: false}`. -/
def transferAdmin (st : FamilyState) (memberId actorId : Nat) : FamilyResult × FamilyState :=
  match st.members.find? (fun m => m.id == memberId) with
  | none => (.notFoundOrInactive, st)
  | some target =>
    if target.status ≠ MemberStatus.active then (.notFoundOrInactive, st)
    else
      match st.members.find?
          (fun m => m.parent_id == target.parent_id && m.user_id == actorId) with
      | none => (.notAuthorized, st)
      | some currentAdmin =>
        if currentAdmin.role ≠ Role.admin then (.notAuthorized, st)
        else
          let ms1 := st.members.map fun m =>
            if m.id == memberId then
              { m with role := Role.admin
                       permissions := ⟨true, true, true⟩ }
            else m
          let ms2 := ms1.map fun m =>
            if m.id == currentAdmin.id then
              { m with role := Role.editor
                       permissions := ⟨true, true, false⟩ }
            else m
          (.ok, { st with members := ms2 })

/-- Net per-row effect of the two sequential updates of
`transferAdmin`: the demotion runs second, so it wins on the actor's
row even when that row is also the promotion target. -/
def transferResultRow (memberId adminRowId : Nat) (m : FamilyMember) : FamilyMember :=
  if m.id == adminRowId then
    { m with role := Role.editor, permissions := ⟨true, true, false⟩ }
  else if m.id == memberId then
    { m with role := Role.admin, permissions := ⟨true, true, true⟩ }
  else m

/-- The membership operations reachable through the family router. -/
inductive MemberOp where
  | invite (actorId parentId : Nat) (email : String) (role : Role) (perms : Option Permissions)
  | acceptOp (inviteId actorId : Nat)
  | declineOp (inviteId actorId : Nat)
  | updateOp (memberId actorId : Nat) (role : Option Role) (perms : Option Permissions)
  | removeOp (memberId actorId : Nat)
  | transferOp (memberId actorId : Nat)
deriving DecidableEq, Repr

def applyOp (st : FamilyState) : MemberOp → FamilyState
  | .invite a p e r pe => (inviteMember st a p e r pe).2
  | .acceptOp i a => (acceptInvite st i a).2
  | .declineOp i a => (declineInvite st i a).2
  | .updateOp m a r pe => (updatePermissions st m a r pe).2
  | .removeOp m a => (removeMember st m a).2
  | .transferOp m a => (transferAdmin st m a).2

def applyOps (st : FamilyState) (ops : List MemberOp) : FamilyState :=
  ops.foldl applyOp st

/-- Operations that do not rewrite roles in place:
`updatePermissions` and `transferAdmin` are the two that can. -/
def MemberOp.isSafeOp : MemberOp → Bool
  | .updateOp _ _ _ _ => false
  | .transferOp _ _ => false
  | _ => true

/-- Well-formedness guaranteed by the database: membership primary keys
are distinct and below the fresh-id counter. -/
def WF (st : FamilyState) : Prop :=
  (st.members.map (·.id)).Nodup ∧ ∀ m ∈ st.members, m.id < st.nextId

/-! ## Permission guards

`checkFamilyPermission` from `auth.middleware.ts` (status-filtered
lookup, admin override, then the per-action flag), and the inline
guards of the route handlers: the common
`!permissions?.can_edit && role !== 'admin'` pattern, and the guard of
`PATCH /api/appointments/:id/status`, which reads only
`permissions?.can_edit` (no status filter, no admin override). -/

inductive PermAction where
  | view
  | edit
  | delete
deriving DecidableEq, Repr

def checkFamilyPermission (members : List FamilyMember) (parentId userId : Nat)
    (action : PermAction) : Bool :=
  match members.find?
      (fun m => m.parent_id == parentId && m.user_id == userId
        && m.status == MemberStatus.active) with
  | none => false
  | some fm =>
    if fm.role = Role.admin then true
    else
      match action with
      | .view => fm.permissions.can_view
      | .edit => fm.permissions.can_edit
      | .delete => fm.permissions.can_delete

def editGuard (members : List FamilyMember) (parentId userId : Nat) : Bool :=
  match members.find? (fun m => m.parent_id == parentId && m.user_id == userId) with
  | none => false
  | some fm => fm.permissions.can_edit || fm.role == Role.admin

def deleteGuard (members : List FamilyMember) (parentId userId : Nat) : Bool :=
  match members.find? (fun m => m.parent_id == parentId && m.user_id == userId) with
  | none => false
  | some fm => fm.permissions.can_delete || fm.role == Role.admin

def appointmentStatusGuard (members : List FamilyMember) (parentId userId : Nat) : Bool :=
  match members.find? (fun m => m.parent_id == parentId && m.user_id == userId) with
  | none => false
  | some fm => fm.permissions.can_edit

/-! ## Notification dispatcher

`createNotification` inserts a `notifications` row and then calls
`sendPushNotification`; any thrown error (including a failed insert) is
caught at the end of the function, so the caller never sees a failure.
`sendPushNotification` loads the caller's active subscriptions, fans
out deliveries collecting all outcomes, and deactivates (update keyed
on the subscription id) any subscription whose delivery failed with
status 410. -/

structure NotifState where
  notifications : List Notification
  push_subscriptions : List PushSub
deriving DecidableEq, Repr

inductive PushOutcome where
  | delivered
  | gone
  | failed
deriving DecidableEq, Repr

/-- Outcomes of the external collaborators during one call: whether the
row insert succeeds, and what the push channel reports per
subscription id. -/
structure DispatchEnv where
  insertOk : Bool
  deliver : Nat → PushOutcome

def isGone : PushOutcome → Bool
  | .gone => true
  | _ => false

def deactivateSub (subId : Nat) (st : NotifState) : NotifState :=
  { st with
    push_subscriptions := st.push_subscriptions.map fun s =>
      if s.id == subId then { s with is_active := false } else s }

def pushStep (env : DispatchEnv) (acc : NotifState) (sub : PushSub) : NotifState :=
  if isGone (env.deliver sub.id) then deactivateSub sub.id acc else acc

/-- Ids of the subscriptions in `subs` whose delivery reports 410. -/
def pushGoneIds (env : DispatchEnv) (subs : List PushSub) : List Nat :=
  (subs.filter fun sub => isGone (env.deliver sub.id)).map (·.id)

def sendPushNotification (env : DispatchEnv) (st : NotifState) (userId : Nat) : NotifState :=
  let subs := st.push_subscriptions.filter fun s => s.user_id == userId && s.is_active
  subs.foldl (pushStep env) st

def createNotification (env : DispatchEnv) (st : NotifState) (userId : Nat)
    (ntype : NType) (title message : String) : NotifState :=
  if env.insertOk then
    sendPushNotification env
      { st with
        notifications := st.notifications ++
          [{ user_id := userId, ntype := ntype, title := title,
             message := message, is_read := false }] }
      userId
  else st

/-! ## Appointment status sweep

The `30 0 * * *` cron in `scheduler.ts` runs a single update:
`status := 'missed'` where `scheduled_at < now` and
`status = 'scheduled'`. -/

def updatePastAppointments (now : Nat) (appts : List Appointment) : List Appointment :=
  appts.map fun a =>
    if a.scheduled_at < now && a.status == ApptStatus.scheduled then
      { a with status := ApptStatus.missed }
    else a

/-! ## Concrete scenarios used by counterexamples and witnesses -/

/-- One active medication scheduled at `08:00`. -/
def medsEight : List Medication := [⟨1, 1, "Losartana", "50mg", true, ["08:00"]⟩]

/-- A single active viewer membership for recipient 1. -/
def famsOne : List FamilyMember := [⟨1, 1, 100, .viewer, ⟨true, false, false⟩, .active, 100⟩]

/-- A recipient whose creator (user 100) is its sole active admin. -/
def stSole : FamilyState :=
  ⟨[⟨100, "a@x.com"⟩], [⟨1, 1, 100, .admin, ⟨true, true, true⟩, .active, 100⟩], 2⟩

/-- Recipient 1 with active admins (users 100, 300) and an active viewer
(user 200). -/
def stTwoAdmins : FamilyState :=
  ⟨[], [⟨1, 1, 100, .admin, ⟨true, true, true⟩, .active, 100⟩,
        ⟨2, 1, 200, .viewer, ⟨true, false, false⟩, .active, 100⟩,
        ⟨3, 1, 300, .admin, ⟨true, true, true⟩, .active, 100⟩], 4⟩

/-- An active admin membership whose stored flags are all false. -/
def memsFlagless : List FamilyMember :=
  [⟨1, 1, 100, .admin, ⟨false, false, false⟩, .active, 100⟩]

/-- Recipient 1 with an active editor (user 100) and a `pending` admin
membership (user 200); user 300 is a registered profile. -/
def stPendingAdmin : FamilyState :=
  ⟨[⟨300, "c@x.com"⟩],
   [⟨1, 1, 100, .editor, ⟨true, true, false⟩, .active, 100⟩,
    ⟨2, 1, 200, .admin, ⟨true, true, true⟩, .pending, 100⟩], 3⟩

/-- Recipient 1 with one active admin (user 100, membership 1) and one
active viewer (user 200, membership 2). -/
def stAdminViewer : FamilyState :=
  ⟨[], [⟨1, 1, 100, .admin, ⟨true, true, true⟩, .active, 100⟩,
        ⟨2, 1, 200, .viewer, ⟨true, false, false⟩, .active, 100⟩], 3⟩

/-- Two appointments: one past and scheduled, one past and completed. -/
def apptsSweep : List Appointment := [⟨1, 1, 500, .scheduled⟩, ⟨2, 1, 500, .completed⟩]

/-- Two active subscriptions for user 100 and one for user 200. -/
def stSubs : NotifState :=
  ⟨[], [⟨1, 100, "ep1", true⟩, ⟨2, 100, "ep2", true⟩, ⟨3, 200, "ep3", true⟩]⟩

/-- A delivery environment whose insert succeeds and where only
endpoint 1 reports 410. -/
def envGoneOne : DispatchEnv := ⟨true, fun i => if i == 1 then .gone else .delivered⟩

/-! ## Claim theorems -/

/-- Claim C1, counterexample.  The claim asserts that for a medication
scheduled at `08:00` the scan at current time `07:55` generates exactly
one notification per active family member.  In the code the firing
condition is `hour === currentHour && minute - currentMinute === 5`,
so at `07:55` the hour test `8 === 7` already fails: the scan generates
no notification at all, although the recipient has one active family
member. -/
theorem medication_scan_0755_fires_nothing :
    sendMedicationReminders medsEight famsOne 7 55 = [] ∧
    (famsOne.filter fun fm =>
      fm.parent_id == 1 && fm.status == MemberStatus.active).length = 1 := by
  decide

/-- Claim C2, counterexample.  Transferring admin to the actor's own
membership runs both sequential updates against the same row: the row
is first promoted to admin and then demoted to editor.  Starting from
a recipient whose creator is its sole active admin, the single
operation `transferAdmin` (target = the actor's own membership) leaves
the recipient with an active membership but zero active admin
memberships, violating the invariant. -/
theorem active_admin_invariant_broken_by_self_transfer :
    activeAdminCount (applyOps stSole [.transferOp 1 100]) 1 = 0 ∧
    0 < ((applyOps stSole [.transferOp 1 100]).members.filter fun m =>
      m.parent_id == 1 && m.status == MemberStatus.active).length := by
  decide

/-- Claim C4, counterexample.  The claim asserts a successful transfer
leaves exactly one admin (the target).  The handler only writes the
target row and the actor's row; any further admin membership is
untouched.  With active admins 100 and 300, user 100 transferring
admin to the viewer membership (id 2) succeeds and leaves two admin
memberships. -/
theorem transfer_admin_two_admins_remain :
    (transferAdmin stTwoAdmins 2 100).1 = FamilyResult.ok ∧
    ((transferAdmin stTwoAdmins 2 100).2.members.filter fun m =>
      m.parent_id == 1 && m.role == Role.admin).length = 2 := by
  decide

/-- Claim C5, counterexample.  The guard of
`PATCH /api/appointments/:id/status` reads only
`permissions?.can_edit`, with no admin override: an active admin
membership whose stored flags are all false is denied this Appointment
mutation, although `checkFamilyPermission` would grant it. -/
theorem appointment_status_guard_denies_admin :
    appointmentStatusGuard memsFlagless 1 100 = false ∧
    checkFamilyPermission memsFlagless 1 100 .edit = true ∧
    (memsFlagless.find? fun m => m.parent_id == 1 && m.user_id == 100) =
      some ⟨1, 1, 100, .admin, ⟨false, false, false⟩, .active, 100⟩ := by
  decide

/-- Claim C9.  The admin gates of invite, update-permissions and
transfer-admin look the actor up by `(parent_id, user_id)` without
filtering on membership status: in `stPendingAdmin` user 200 holds a
membership with role `admin` and status `pending`, and all three
operations driven by user 200 succeed. -/
theorem admin_gates_ignore_status :
    ((stPendingAdmin.members.find? fun m => m.parent_id == 1 && m.user_id == 200) =
      some ⟨2, 1, 200, .admin, ⟨true, true, true⟩, .pending, 100⟩) ∧
    (inviteMember stPendingAdmin 200 1 "c@x.com" .viewer none).1 = FamilyResult.ok ∧
    (updatePermissions stPendingAdmin 1 200 (some .viewer) none).1 = FamilyResult.ok ∧
    (transferAdmin stPendingAdmin 1 200).1 = FamilyResult.ok := by
  decide

/-- Claim C10.  `createNotification` wraps its whole body, including the
row insert, in a catch that only logs: when the insert fails the call
completes normally with the state unchanged, so the caller observes
success while no Notification row was persisted. -/
theorem create_notification_swallows_insert_failure (env : DispatchEnv) (st : NotifState)
    (u : Nat) (ty : NType) (ti msg : String) (h : env.insertOk = false) :
    createNotification env st u ty ti msg = st ∧
    (createNotification env st u ty ti msg).notifications.length =
      st.notifications.length := by
  simp [createNotification, h]

/-- Witness for C10 at a concrete failing insert. -/
theorem create_notification_swallows_insert_failure_witness :
    createNotification ⟨false, fun _ => .delivered⟩ stSubs 100 .system "t" "m" = stSubs ∧
    (createNotification ⟨false, fun _ => .delivered⟩ stSubs 100
      .system "t" "m").notifications.length = stSubs.notifications.length :=
  create_notification_swallows_insert_failure ⟨false, fun _ => .delivered⟩ stSubs
    100 .system "t" "m" rfl

/-- Claim C8.  The daily status sweep maps an appointment to `missed`
exactly when its status is `scheduled` and its time is past; every
other appointment, in particular a completed one, is returned
unchanged, and every output row is either an unchanged input row or
such a `missed` transition of a past scheduled row. -/
theorem appointment_sweep_spec (now : Nat) (appts : List Appointment)
    (a : Appointment) (ha : a ∈ appts) :
    (updatePastAppointments now appts).length = appts.length ∧
    (a.status = ApptStatus.scheduled → a.scheduled_at < now →
      { a with status := ApptStatus.missed } ∈ updatePastAppointments now appts) ∧
    (¬(a.status = ApptStatus.scheduled ∧ a.scheduled_at < now) →
      a ∈ updatePastAppointments now appts) ∧
    (∀ b ∈ updatePastAppointments now appts,
      b ∈ appts ∨
        (b.status = ApptStatus.missed ∧ b.scheduled_at < now ∧
          { b with status := ApptStatus.scheduled } ∈ appts)) := by
  refine ⟨List.length_map _ _, ?_, ?_, ?_⟩
  · intro hs hlt
    refine List.mem_map.mpr ⟨a, ha, ?_⟩
    simp [hs, hlt]
  · intro hn
    refine List.mem_map.mpr ⟨a, ha, ?_⟩
    by_cases hs : a.status = ApptStatus.scheduled
    · have hlt : ¬a.scheduled_at < now := fun hlt => hn ⟨hs, hlt⟩
      simp [hlt]
    · simp [hs]
  · intro b hb
    rcases List.mem_map.mp hb with ⟨x, hx, hxb⟩
    by_cases hc : x.scheduled_at < now ∧ x.status = ApptStatus.scheduled
    · right
      have : b = { x with status := ApptStatus.missed } := by
        simp [hc.1, hc.2] at hxb
        exact hxb.symm
      subst this
      refine ⟨rfl, hc.1, ?_⟩
      have : { x with status := ApptStatus.scheduled } = x := by
        cases x
        simp_all
      rw [show ({ x with status := ApptStatus.missed } : Appointment).scheduled_at
            = x.scheduled_at from rfl] at *
      simpa [this] using hx
    · left
      have hcond : (x.scheduled_at < now && x.status == ApptStatus.scheduled) = false := by
        rcases Decidable.not_and_iff_or_not.mp hc with h | h <;> simp [h]
      rw [← hxb]
      simpa [hcond] using hx

/-- Witness for C8: the past scheduled appointment of `apptsSweep`
transitions to `missed` and the completed one is untouched. -/
theorem appointment_sweep_spec_witness :
    (⟨1, 1, 500, .scheduled⟩ : Appointment) ∈ apptsSweep ∧
    ((updatePastAppointments 1000 apptsSweep).length = apptsSweep.length ∧
     ((⟨1, 1, 500, .scheduled⟩ : Appointment).status = ApptStatus.scheduled →
       (⟨1, 1, 500, .scheduled⟩ : Appointment).scheduled_at < 1000 →
       ({ (⟨1, 1, 500, .scheduled⟩ : Appointment) with status := ApptStatus.missed } : Appointment)
         ∈ updatePastAppointments 1000 apptsSweep) ∧
     (¬((⟨1, 1, 500, .scheduled⟩ : Appointment).status = ApptStatus.scheduled ∧
        (⟨1, 1, 500, .scheduled⟩ : Appointment).scheduled_at < 1000) →
       (⟨1, 1, 500, .scheduled⟩ : Appointment) ∈ updatePastAppointments 1000 apptsSweep) ∧
     (∀ b ∈ updatePastAppointments 1000 apptsSweep,
       b ∈ apptsSweep ∨
         (b.status = ApptStatus.missed ∧ b.scheduled_at < 1000 ∧
           { b with status := ApptStatus.scheduled } ∈ apptsSweep))) :=
  ⟨by decide, appointment_sweep_spec 1000 apptsSweep ⟨1, 1, 500, .scheduled⟩ (by decide)⟩

/-- Claim C3.  For a removal request whose target membership has role
`admin`: an authorized request (self-removal or admin requester) is
rejected with `lastAdminProtected` and leaves the state unchanged when
the recipient has exactly one active admin, and succeeds — deleting
the row — when it has two or more; a requester who is neither the
member nor an admin is rejected with `notAuthorized`. -/
theorem remove_member_last_admin_spec (st : FamilyState) (memberId actorId : Nat)
    (member : FamilyMember)
    (hfind : st.members.find? (fun m => m.id == memberId) = some member) :
    (removeAuthorized st member actorId = true → member.role = Role.admin →
      activeAdminCount st member.parent_id = 1 →
      removeMember st memberId actorId = (.lastAdminProtected, st)) ∧
    (removeAuthorized st member actorId = true → member.role = Role.admin →
      2 ≤ activeAdminCount st member.parent_id →
      removeMember st memberId actorId =
        (.ok, { st with members := st.members.filter fun m => !(m.id == memberId) })) ∧
    (removeAuthorized st member actorId = false →
      removeMember st memberId actorId = (.notAuthorized, st)) := by
  refine ⟨?_, ?_, ?_⟩
  · intro hauth hrole hcount
    simp only [activeAdminCount] at hcount
    simp [removeMember, hfind, hauth, hrole, hcount]
  · intro hauth hrole hcount
    simp only [activeAdminCount] at hcount
    have hne : (activeAdmins st.members member.parent_id).length ≠ 1 := by omega
    simp [removeMember, hfind, hauth, hrole, hne]
  · intro hauth
    simp [removeMember, hfind, hauth]

/-- Witness for C3: in `stTwoAdmins`, removing the sole-admin guard
applies to admin membership 1 only through the authorized branch. -/
theorem remove_member_last_admin_spec_witness :
    (stTwoAdmins.members.find? fun m => m.id == 1) =
      some ⟨1, 1, 100, .admin, ⟨true, true, true⟩, .active, 100⟩ ∧
    removeAuthorized stTwoAdmins ⟨1, 1, 100, .admin, ⟨true, true, true⟩, .active, 100⟩ 100 = true ∧
    (⟨1, 1, 100, .admin, ⟨true, true, true⟩, .active, 100⟩ : FamilyMember).role = Role.admin ∧
    2 ≤ activeAdminCount stTwoAdmins 1 ∧
    removeMember stTwoAdmins 1 100 =
      (.ok, { stTwoAdmins with
        members := stTwoAdmins.members.filter fun m => !(m.id == 1) }) :=
  ⟨by decide, by decide, by decide, by decide,
    (remove_member_last_admin_spec stTwoAdmins 1 100
      ⟨1, 1, 100, .admin, ⟨true, true, true⟩, .active, 100⟩ (by decide)).2.1
      (by decide) (by decide) (by decide)⟩

/-- Claim C6.  Under the invite gate (the requester's membership for
the pair has role `admin`): the invite fails with `userNotFound` when
no profile carries the given email; it is rejected when an `active` or
`pending` membership for the (user, recipient) pair exists; otherwise
(no membership for the pair) it inserts a `pending` membership whose
flags, when no explicit flags are supplied, default from the role as
admin→all true, editor→{view, edit}, viewer→{view}. -/
theorem invite_member_spec (st : FamilyState) (actorId parentId : Nat) (email : String)
    (role : Role) (perms : Option Permissions) (inviter : FamilyMember)
    (hinv : st.members.find?
      (fun m => m.parent_id == parentId && m.user_id == actorId) = some inviter)
    (hadm : inviter.role = Role.admin) :
    (st.profiles.find? (fun pr => pr.email == email) = none →
      inviteMember st actorId parentId email role perms = (.userNotFound, st)) ∧
    (∀ target existing,
      st.profiles.find? (fun pr => pr.email == email) = some target →
      st.members.find?
        (fun m => m.parent_id == parentId && m.user_id == target.id) = some existing →
      (existing.status = MemberStatus.active →
        inviteMember st actorId parentId email role perms = (.alreadyMember, st)) ∧
      (existing.status = MemberStatus.pending →
        inviteMember st actorId parentId email role perms = (.invitePendingExists, st))) ∧
    (∀ target,
      st.profiles.find? (fun pr => pr.email == email) = some target →
      st.members.find?
        (fun m => m.parent_id == parentId && m.user_id == target.id) = none →
      inviteMember st actorId parentId email role none =
        (.ok, { st with
          members := st.members ++
            [⟨st.nextId, parentId, target.id, role, defaultPerms role, .pending, actorId⟩],
          nextId := st.nextId + 1 })) ∧
    defaultPerms .admin = ⟨true, true, true⟩ ∧
    defaultPerms .editor = ⟨true, true, false⟩ ∧
    defaultPerms .viewer = ⟨true, false, false⟩ := by
  refine ⟨?_, ?_, ?_, by decide, by decide, by decide⟩
  · intro hnone
    simp [inviteMember, hinv, hadm, hnone]
  · intro target existing htarget hexisting
    constructor
    · intro hst
      simp [inviteMember, hinv, hadm, htarget, hexisting, hst]
    · intro hst
      have hne : existing.status ≠ MemberStatus.active := by
        rw [hst]; decide
      simp [inviteMember, hinv, hadm, htarget, hexisting, hst, hne]
  · intro target htarget hnone
    simp [inviteMember, hinv, hadm, htarget, hnone]

/-- Witness for C6: in `stSole` the admin (user 100) invites the
unregistered address, which fails with `userNotFound`. -/
theorem invite_member_spec_witness :
    (stSole.members.find? fun m => m.parent_id == 1 && m.user_id == 100) =
      some ⟨1, 1, 100, .admin, ⟨true, true, true⟩, .active, 100⟩ ∧
    (⟨1, 1, 100, .admin, ⟨true, true, true⟩, .active, 100⟩ : FamilyMember).role = Role.admin ∧
    (stSole.profiles.find? (fun pr => pr.email == "nobody@x.com") = none →
      inviteMember stSole 100 1 "nobody@x.com" .viewer none = (.userNotFound, stSole)) :=
  ⟨by decide, by decide,
    (invite_member_spec stSole 100 1 "nobody@x.com" .viewer none
      ⟨1, 1, 100, .admin, ⟨true, true, true⟩, .active, 100⟩ (by decide) (by decide)).1⟩

/-- Claim C5, amended.  `checkFamilyPermission` and the inline
`flag || role === 'admin'` guards grant an admin membership every
capability regardless of stored flags; the exception forced by the
counterexample is the guard of `PATCH /api/appointments/:id/status`,
which returns exactly the stored `can_edit` flag, ignoring the admin
role. -/
theorem admin_override_guards_spec (members : List FamilyMember) (parentId userId : Nat)
    (fmA fmP : FamilyMember)
    (hA : members.find?
      (fun m => m.parent_id == parentId && m.user_id == userId
        && m.status == MemberStatus.active) = some fmA)
    (hRA : fmA.role = Role.admin)
    (hP : members.find?
      (fun m => m.parent_id == parentId && m.user_id == userId) = some fmP)
    (hRP : fmP.role = Role.admin) :
    (∀ a, checkFamilyPermission members parentId userId a = true) ∧
    editGuard members parentId userId = true ∧
    deleteGuard members parentId userId = true ∧
    appointmentStatusGuard members parentId userId = fmP.permissions.can_edit := by
  refine ⟨?_, ?_, ?_, ?_⟩
  · intro a
    simp [checkFamilyPermission, hA, hRA]
  · simp [editGuard, hP, hRP]
  · simp [deleteGuard, hP, hRP]
  · simp [appointmentStatusGuard, hP]

/-- Witness for C5 (amended) on `memsFlagless`: the admin passes every
`checkFamilyPermission`/inline-override guard, while the status guard
returns the stored `can_edit = false`. -/
theorem admin_override_guards_spec_witness :
    (memsFlagless.find? fun m =>
      m.parent_id == 1 && m.user_id == 100 && m.status == MemberStatus.active) =
        some ⟨1, 1, 100, .admin, ⟨false, false, false⟩, .active, 100⟩ ∧
    ((∀ a, checkFamilyPermission memsFlagless 1 100 a = true) ∧
     editGuard memsFlagless 1 100 = true ∧
     deleteGuard memsFlagless 1 100 = true ∧
     appointmentStatusGuard memsFlagless 1 100 =
       (⟨1, 1, 100, .admin, ⟨false, false, false⟩, .active, 100⟩ :
         FamilyMember).permissions.can_edit) :=
  ⟨by decide,
    admin_override_guards_spec memsFlagless 1 100
      ⟨1, 1, 100, .admin, ⟨false, false, false⟩, .active, 100⟩
      ⟨1, 1, 100, .admin, ⟨false, false, false⟩, .active, 100⟩
      (by decide) (by decide) (by decide) (by decide)⟩

/-- The push fan-out fold deactivates exactly the rows whose id is
among the 410-reporting subscriptions of the processed list, and never
touches the notifications table. -/
theorem foldl_pushStep_spec (env : DispatchEnv) (subs : List PushSub) (st : NotifState) :
    (subs.foldl (pushStep env) st).notifications = st.notifications ∧
    (subs.foldl (pushStep env) st).push_subscriptions =
      st.push_subscriptions.map (fun s =>
        if s.id ∈ pushGoneIds env subs then { s with is_active := false } else s) := by
  induction subs generalizing st with
  | nil => simp [pushGoneIds]
  | cons sub rest ih =>
    rw [List.foldl_cons]
    by_cases hg : isGone (env.deliver sub.id) = true
    · rcases ih (pushStep env st sub) with ⟨ihn, ihs⟩
      have hstep : pushStep env st sub = deactivateSub sub.id st := by
        simp [pushStep, hg]
      have hgone : pushGoneIds env (sub :: rest) = sub.id :: pushGoneIds env rest := by
        simp [pushGoneIds, hg]
      refine ⟨by rw [ihn, hstep]; rfl, ?_⟩
      rw [ihs, hstep, hgone]
      simp only [deactivateSub, List.map_map]
      apply List.map_congr_left
      intro s _
      obtain ⟨sid, suid, sep, sact⟩ := s
      by_cases h1 : sid = sub.id
      · by_cases h2 : sid ∈ pushGoneIds env rest <;>
          simp [Function.comp, h1, h2, List.mem_cons]
      · by_cases h2 : sid ∈ pushGoneIds env rest <;>
          simp [Function.comp, h1, h2, List.mem_cons]
    · rcases ih st with ⟨ihn, ihs⟩
      have hstep : pushStep env st sub = st := by
        simp [pushStep, hg]
      have hgone : pushGoneIds env (sub :: rest) = pushGoneIds env rest := by
        simp [pushGoneIds, hg]
      rw [hstep, hgone]
      exact ⟨ihn, ihs⟩

/-- `sendPushNotification` leaves the notifications table unchanged and
deactivates exactly the caller's active subscriptions whose delivery
reports 410, leaving every other row as it was. -/
theorem sendPush_spec (env : DispatchEnv) (st : NotifState) (u : Nat)
    (hnodup : (st.push_subscriptions.map (·.id)).Nodup) :
    (sendPushNotification env st u).notifications = st.notifications ∧
    (sendPushNotification env st u).push_subscriptions =
      st.push_subscriptions.map (fun s =>
        if s.user_id == u && s.is_active && isGone (env.deliver s.id) then
          { s with is_active := false } else s) := by
  unfold sendPushNotification
  rcases foldl_pushStep_spec env
    (st.push_subscriptions.filter fun s => s.user_id == u && s.is_active) st with ⟨hn, hs⟩
  refine ⟨hn, ?_⟩
  rw [hs]
  apply List.map_congr_left
  intro s hsmem
  have hiff : s.id ∈ pushGoneIds env
      (st.push_subscriptions.filter fun x => x.user_id == u && x.is_active) ↔
      (s.user_id == u && s.is_active && isGone (env.deliver s.id)) = true := by
    constructor
    · intro hmem
      simp only [pushGoneIds, List.mem_map, List.mem_filter] at hmem
      rcases hmem with ⟨s', ⟨⟨hs'mem, hp⟩, hgone⟩, hid⟩
      have heq : s' = s := List.inj_on_of_nodup_map hnodup hs'mem hsmem hid
      subst heq
      simp_all
    · intro hcond
      simp only [pushGoneIds, List.mem_map, List.mem_filter]
      exact ⟨s, ⟨⟨hsmem, by simp_all⟩, by simp_all⟩, rfl⟩
  by_cases hc : (s.user_id == u && s.is_active && isGone (env.deliver s.id)) = true
  · rw [if_pos (hiff.mpr hc), if_pos hc]
  · rw [if_neg (fun h => hc (hiff.mp h)), if_neg hc]

/-- Claim C7.  When the row insert succeeds, `createNotification`
persists exactly one Notification row whatever the push outcomes are;
a 410 ("endpoint gone") delivery outcome deactivates exactly that
subscription, and every other subscription row — the user's other
endpoints included — is left unchanged. -/
theorem create_notification_persists_and_deactivates (env : DispatchEnv) (st : NotifState)
    (u : Nat) (ty : NType) (ti msg : String)
    (hins : env.insertOk = true)
    (hnodup : (st.push_subscriptions.map (·.id)).Nodup) :
    (createNotification env st u ty ti msg).notifications =
      st.notifications ++ [⟨u, ty, ti, msg, false⟩] ∧
    (createNotification env st u ty ti msg).push_subscriptions =
      st.push_subscriptions.map (fun s =>
        if s.user_id == u && s.is_active && isGone (env.deliver s.id) then
          { s with is_active := false } else s) := by
  have h := sendPush_spec env
    { st with notifications := st.notifications ++ [⟨u, ty, ti, msg, false⟩] } u hnodup
  rw [createNotification, if_pos hins]
  exact ⟨h.1, h.2⟩

/-- Witness for C7 on `stSubs` and `envGoneOne`: one row is persisted,
subscription 1 is deactivated, subscriptions 2 and 3 stay active. -/
theorem create_notification_persists_and_deactivates_witness :
    envGoneOne.insertOk = true ∧
    ((stSubs.push_subscriptions.map fun s => s.id).Nodup ∧
     (createNotification envGoneOne stSubs 100 .system "t" "m").notifications =
       stSubs.notifications ++ [⟨100, .system, "t", "m", false⟩] ∧
     (createNotification envGoneOne stSubs 100 .system "t" "m").push_subscriptions =
       stSubs.push_subscriptions.map (fun s =>
         if s.user_id == 100 && s.is_active && isGone (envGoneOne.deliver s.id) then
           { s with is_active := false } else s)) :=
  ⟨rfl, by decide,
    create_notification_persists_and_deactivates envGoneOne stSubs 100 .system "t" "m"
      rfl (by decide)⟩

/-- Claim C4, amended.  The transfer fails with
`notFoundOrInactive`/`notAuthorized` unless the target membership is
active and the actor's membership has role `admin`.  On success the
target row is set to admin with all flags true and the actor's row is
set to editor with `{view: true, edit: true, delete: false}` — the
demotion runs second, so it wins when the two rows coincide — while
every other row is untouched; consequently the recipient is left with
exactly one admin only when the actor's row was its only admin row and
is distinct from the target. -/
theorem transfer_admin_spec (st : FamilyState) (memberId actorId : Nat)
    (target currentAdmin : FamilyMember)
    (htar : st.members.find? (fun m => m.id == memberId) = some target)
    (hcur : st.members.find?
      (fun m => m.parent_id == target.parent_id && m.user_id == actorId) = some currentAdmin) :
    (target.status ≠ MemberStatus.active →
      transferAdmin st memberId actorId = (.notFoundOrInactive, st)) ∧
    (target.status = MemberStatus.active → currentAdmin.role ≠ Role.admin →
      transferAdmin st memberId actorId = (.notAuthorized, st)) ∧
    (target.status = MemberStatus.active → currentAdmin.role = Role.admin →
      transferAdmin st memberId actorId =
        (.ok, { st with
          members := st.members.map (transferResultRow memberId currentAdmin.id) })) ∧
    (target.status = MemberStatus.active → currentAdmin.role = Role.admin →
      (st.members.map (·.id)).Nodup →
      currentAdmin.id ≠ memberId →
      (st.members.filter fun m =>
        m.parent_id == target.parent_id && m.role == Role.admin) = [currentAdmin] →
      ((transferAdmin st memberId actorId).2.members.filter fun m =>
        m.parent_id == target.parent_id && m.role == Role.admin).length = 1) := by
  have htarmem : target ∈ st.members := List.mem_of_find?_eq_some htar
  have htarid : target.id = memberId := by
    have := List.find?_some htar
    simpa using this
  have hsucc : ∀ (hs : target.status = MemberStatus.active)
      (hr : currentAdmin.role = Role.admin),
      transferAdmin st memberId actorId =
        (.ok, { st with
          members := st.members.map (transferResultRow memberId currentAdmin.id) }) := by
    intro hs hr
    simp only [transferAdmin, htar, hcur]
    rw [if_neg (by simp [hs]), if_neg (by simp [hr])]
    simp only [List.map_map]
    congr 1
    congr 1
    apply List.map_congr_left
    intro m _
    obtain ⟨mid, mpar, muser, mrole, mperm, mstat, minv⟩ := m
    simp only [Function.comp, transferResultRow]
    by_cases h1 : mid = currentAdmin.id
    · by_cases h2 : mid = memberId
      · have h3 : currentAdmin.id = memberId := by rw [← h1, h2]
        simp [h1, h2, h3]
      · have h3 : ¬(currentAdmin.id = memberId) := fun hc => h2 (by rw [h1, hc])
        simp [h1, h2, h3]
    · by_cases h2 : mid = memberId <;> simp [h1, h2]
  refine ⟨?_, ?_, hsucc, ?_⟩
  · intro hs
    simp only [transferAdmin, htar]
    rw [if_pos hs]
  · intro hs hr
    simp only [transferAdmin, htar, hs, hcur]
    simp [hr]
  · intro hs hr hnodup hne hfilter
    rw [hsucc hs hr]
    simp only [← List.countP_eq_length_filter, List.countP_map]
    have honly : ∀ m ∈ st.members, m.parent_id = target.parent_id → m.role = Role.admin →
        m = currentAdmin := by
      intro m hm hp hrole
      have : m ∈ st.members.filter fun x =>
          x.parent_id == target.parent_id && x.role == Role.admin :=
        List.mem_filter.mpr ⟨hm, by simp [hp, hrole]⟩
      rw [hfilter] at this
      simpa using this
    have hcongr : st.members.countP
        ((fun m => m.parent_id == target.parent_id && m.role == Role.admin) ∘
          transferResultRow memberId currentAdmin.id) =
        st.members.countP (fun m => m.id == memberId) := by
      apply List.countP_congr
      intro m hm
      simp only [Function.comp, transferResultRow]
      constructor
      · intro h
        by_cases h1 : m.id = currentAdmin.id
        · simp [h1] at h
        · by_cases h2 : m.id = memberId
          · simp [h2]
          · simp [h1, h2] at h
            exact absurd (congrArg FamilyMember.id (honly m hm h.1 h.2)) h1
      · intro h
        have h2 : m.id = memberId := by simpa using h
        have h1 : ¬(m.id = currentAdmin.id) := fun hcontra => hne (by rw [← hcontra, h2])
        have hmtar : m = target :=
          List.inj_on_of_nodup_map hnodup hm htarmem (by rw [h2, htarid])
        rw [hmtar] at h1 h2
        have hne2 : ¬(memberId = currentAdmin.id) := fun hc => hne hc.symm
        simp [hmtar, h1, h2, hne2]
    rw [hcongr]
    have hcount : st.members.countP (fun m => m.id == memberId) =
        (st.members.map (·.id)).count memberId := by
      simp [List.count, List.countP_map]
      rfl
    rw [hcount]
    have hmemb : memberId ∈ st.members.map (·.id) :=
      List.mem_map.mpr ⟨target, htarmem, htarid⟩
    exact List.count_eq_one_of_mem hnodup hmemb

/-- Witness for C4 (amended) on `stAdminViewer`: user 100 transfers
admin to membership 2; every conjunct is discharged at this state. -/
theorem transfer_admin_spec_witness :
    (stAdminViewer.members.find? fun m => m.id == 2) =
      some ⟨2, 1, 200, .viewer, ⟨true, false, false⟩, .active, 100⟩ ∧
    ((⟨2, 1, 200, .viewer, ⟨true, false, false⟩, .active, 100⟩ : FamilyMember).status
        = MemberStatus.active →
      (⟨1, 1, 100, .admin, ⟨true, true, true⟩, .active, 100⟩ : FamilyMember).role = Role.admin →
      (stAdminViewer.members.map fun m => m.id).Nodup →
      (⟨1, 1, 100, .admin, ⟨true, true, true⟩, .active, 100⟩ : FamilyMember).id ≠ 2 →
      (stAdminViewer.members.filter fun m =>
        m.parent_id ==
          (⟨2, 1, 200, .viewer, ⟨true, false, false⟩, .active, 100⟩ : FamilyMember).parent_id
          && m.role == Role.admin) =
        [⟨1, 1, 100, .admin, ⟨true, true, true⟩, .active, 100⟩] →
      ((transferAdmin stAdminViewer 2 100).2.members.filter fun m =>
        m.parent_id ==
          (⟨2, 1, 200, .viewer, ⟨true, false, false⟩, .active, 100⟩ : FamilyMember).parent_id
          && m.role == Role.admin).length = 1) :=
  ⟨by decide,
    (transfer_admin_spec stAdminViewer 2 100
      ⟨2, 1, 200, .viewer, ⟨true, false, false⟩, .active, 100⟩
      ⟨1, 1, 100, .admin, ⟨true, true, true⟩, .active, 100⟩
      (by decide) (by decide)).2.2.2⟩

/-! ## Liveness of the active-admin count under the non-role-rewriting
operations -/

theorem countP_split {α : Type} (l : List α) (p q : α → Bool) :
    l.countP p = l.countP (fun a => p a && q a) + l.countP (fun a => p a && !q a) := by
  induction l with
  | nil => simp
  | cons x xs ih =>
    by_cases hp : p x = true <;> by_cases hq : q x = true <;>
      simp [List.countP_cons, hp, hq, ih] <;> omega

theorem countP_member_id_eq (l : List FamilyMember) (i : Nat) :
    l.countP (fun m => m.id == i) = (l.map (·.id)).count i := by
  simp [List.count, List.countP_map]
  rfl

theorem countP_id_le_one (l : List FamilyMember) (hnd : (l.map (·.id)).Nodup) (i : Nat) :
    l.countP (fun m => m.id == i) ≤ 1 := by
  rw [countP_member_id_eq]
  exact List.nodup_iff_count_le_one.mp hnd i

/-- Deleting the rows of one id does not change the active-admin count
when the (unique) row of that id is not an active admin of the
recipient. -/
theorem countP_adminP_erase_ne (l : List FamilyMember) (p i : Nat) (member : FamilyMember)
    (hnd : (l.map (·.id)).Nodup) (hmem : member ∈ l) (hmid : member.id = i)
    (hmp : ¬adminP p member = true) :
    l.countP (fun m => adminP p m && !(m.id == i)) = l.countP (adminP p) := by
  apply List.countP_congr
  intro m hm
  constructor
  · intro h
    simpa using (by simpa using h : adminP p m = true ∧ ¬(m.id = i)).1
  · intro h
    have hne : ¬(m.id = i) := by
      intro hcontra
      have : m = member := List.inj_on_of_nodup_map hnd hm hmem (by rw [hcontra, hmid])
      exact hmp (this ▸ h)
    simp [h, hne]

/-- Deleting the rows of one id keeps the active-admin count positive
when it was distinct from 1 (the last-admin guard) even if the deleted
row is an active admin of the recipient. -/
theorem countP_adminP_erase_pos (l : List FamilyMember) (p i : Nat) (member : FamilyMember)
    (hnd : (l.map (·.id)).Nodup) (hmem : member ∈ l) (_hmid : member.id = i)
    (hmp : adminP p member = true) (hcount : l.countP (adminP p) ≠ 1) :
    0 < l.countP (fun m => adminP p m && !(m.id == i)) := by
  have hpos : 0 < l.countP (adminP p) := List.countP_pos_iff.mpr ⟨member, hmem, hmp⟩
  have hsplit := countP_split l (adminP p) (fun m => m.id == i)
  have hle : l.countP (fun m => adminP p m && (m.id == i)) ≤
      l.countP (fun m => m.id == i) :=
    List.countP_mono_left (fun m _ h => by simpa using (by simpa using h :
      adminP p m = true ∧ m.id = i).2)
  have hone := countP_id_le_one l hnd i
  omega

theorem inviteMember_result (st : FamilyState) (a pid : Nat) (e : String) (r : Role)
    (pe : Option Permissions) :
    (inviteMember st a pid e r pe).2 = st ∨
    ∃ uid, (inviteMember st a pid e r pe).2 =
      { st with
        members := st.members ++
          [⟨st.nextId, pid, uid, r, pe.getD (defaultPerms r), .pending, a⟩],
        nextId := st.nextId + 1 } := by
  unfold inviteMember
  cases h1 : st.members.find? (fun m => m.parent_id == pid && m.user_id == a) with
  | none => left; rfl
  | some inviter =>
    dsimp only
    by_cases h2 : inviter.role ≠ Role.admin
    · rw [if_pos h2]; left; rfl
    · rw [if_neg h2]
      cases h3 : st.profiles.find? (fun pr => pr.email == e) with
      | none => left; rfl
      | some invitedUser =>
        dsimp only
        cases h4 : st.members.find?
            (fun m => m.parent_id == pid && m.user_id == invitedUser.id) with
        | none => right; exact ⟨invitedUser.id, rfl⟩
        | some existing =>
          dsimp only
          by_cases h5 : existing.status = MemberStatus.active
          · rw [if_pos h5]; left; rfl
          · rw [if_neg h5]
            by_cases h6 : existing.status = MemberStatus.pending
            · rw [if_pos h6]; left; rfl
            · rw [if_neg h6]; right; exact ⟨invitedUser.id, rfl⟩

theorem acceptInvite_result (st : FamilyState) (i a : Nat) :
    (acceptInvite st i a).2 = st ∨
    (acceptInvite st i a).2 =
      { st with
        members := st.members.map fun m =>
          if m.id == i then { m with status := MemberStatus.active } else m } := by
  unfold acceptInvite
  cases h : st.members.find?
      (fun m => m.id == i && m.user_id == a && m.status == MemberStatus.pending) with
  | none => left; rfl
  | some fr => right; rfl

theorem declineInvite_result (st : FamilyState) (i a : Nat) :
    (declineInvite st i a).2 = st ∨
    ∃ fr, st.members.find?
        (fun m => m.id == i && m.user_id == a && m.status == MemberStatus.pending) = some fr ∧
      (declineInvite st i a).2 =
        { st with members := st.members.filter fun m => !(m.id == i) } := by
  unfold declineInvite
  cases h : st.members.find?
      (fun m => m.id == i && m.user_id == a && m.status == MemberStatus.pending) with
  | none => left; rfl
  | some fr => right; exact ⟨fr, rfl, rfl⟩

theorem removeMember_result (st : FamilyState) (mId a : Nat) :
    (removeMember st mId a).2 = st ∨
    ∃ member, st.members.find? (fun m => m.id == mId) = some member ∧
      (member.role = Role.admin →
        (activeAdmins st.members member.parent_id).length ≠ 1) ∧
      (removeMember st mId a).2 =
        { st with members := st.members.filter fun m => !(m.id == mId) } := by
  unfold removeMember
  cases heq : st.members.find? (fun m => m.id == mId) with
  | none => left; rfl
  | some member =>
    dsimp only
    by_cases hauth : (!(removeAuthorized st member a)) = true
    · rw [if_pos hauth]; left; rfl
    · rw [if_neg hauth]
      by_cases hrole : member.role = Role.admin
      · rw [if_pos hrole]
        by_cases hguard : ((activeAdmins st.members member.parent_id).length == 1) = true
        · rw [if_pos hguard]; left; rfl
        · rw [if_neg hguard]; right
          exact ⟨member, rfl, fun _ => by simpa using hguard, rfl⟩
      · rw [if_neg hrole]; right
        exact ⟨member, rfl, fun hr => absurd hr hrole, rfl⟩

theorem wf_filter (st : FamilyState) (hwf : WF st) (f : FamilyMember → Bool) :
    WF { st with members := st.members.filter f } := by
  obtain ⟨hnd, hbd⟩ := hwf
  constructor
  · exact List.Nodup.sublist (List.Sublist.map _ (List.filter_sublist _)) hnd
  · intro m hm
    exact hbd m (List.mem_of_mem_filter hm)

theorem wf_map_id (st : FamilyState) (hwf : WF st) (f : FamilyMember → FamilyMember)
    (hf : ∀ m, (f m).id = m.id) :
    WF { st with members := st.members.map f } := by
  obtain ⟨hnd, hbd⟩ := hwf
  constructor
  · show ((st.members.map f).map (·.id)).Nodup
    rw [List.map_map]
    have : st.members.map ((·.id) ∘ f) = st.members.map (·.id) :=
      List.map_congr_left (fun m _ => hf m)
    rw [this]
    exact hnd
  · intro m hm
    rcases List.mem_map.mp hm with ⟨m0, hm0, rfl⟩
    rw [show (f m0).id = m0.id from hf m0]
    exact hbd m0 hm0

theorem wf_append_fresh (st : FamilyState) (hwf : WF st) (new : FamilyMember)
    (hid : new.id = st.nextId) :
    WF { st with members := st.members ++ [new], nextId := st.nextId + 1 } := by
  obtain ⟨hnd, hbd⟩ := hwf
  constructor
  · show ((st.members ++ [new]).map (·.id)).Nodup
    rw [List.map_append]
    refine List.Nodup.append hnd (by simp) ?_
    intro x hx1 hx2
    simp only [List.map_cons, List.map_nil, List.mem_singleton] at hx2
    subst hx2
    rcases List.mem_map.mp hx1 with ⟨m, hm, hmx⟩
    have := hbd m hm
    rw [hid] at hmx
    omega
  · intro m hm
    rcases List.mem_append.mp hm with h | h
    · exact Nat.lt_succ_of_lt (hbd m h)
    · rw [List.mem_singleton] at h
      subst h
      rw [hid]
      exact Nat.lt_succ_self _

theorem wf_applyOp_safe (st : FamilyState) (op : MemberOp)
    (hs : op.isSafeOp = true) (hwf : WF st) : WF (applyOp st op) := by
  cases op with
  | invite a pid e r pe =>
    rcases inviteMember_result st a pid e r pe with h | ⟨uid, h⟩
    · show WF (inviteMember st a pid e r pe).2
      rw [h]; exact hwf
    · show WF (inviteMember st a pid e r pe).2
      rw [h]; exact wf_append_fresh st hwf _ rfl
  | acceptOp i a =>
    rcases acceptInvite_result st i a with h | h
    · show WF (acceptInvite st i a).2
      rw [h]; exact hwf
    · show WF (acceptInvite st i a).2
      rw [h]
      exact wf_map_id st hwf _ (fun m => by by_cases hb : (m.id == i) = true <;> simp [hb])
  | declineOp i a =>
    rcases declineInvite_result st i a with h | ⟨fr, _, h⟩
    · show WF (declineInvite st i a).2
      rw [h]; exact hwf
    · show WF (declineInvite st i a).2
      rw [h]; exact wf_filter st hwf _
  | removeOp mId a =>
    rcases removeMember_result st mId a with h | ⟨member, _, _, h⟩
    · show WF (removeMember st mId a).2
      rw [h]; exact hwf
    · show WF (removeMember st mId a).2
      rw [h]; exact wf_filter st hwf _
  | updateOp m a r pe => simp [MemberOp.isSafeOp] at hs
  | transferOp m a => simp [MemberOp.isSafeOp] at hs

theorem activeAdminCount_eq_countP (st : FamilyState) (p : Nat) :
    activeAdminCount st p = st.members.countP (adminP p) := by
  simp [activeAdminCount, activeAdmins, List.countP_eq_length_filter]

theorem adminCount_applyOp_safe (st : FamilyState) (op : MemberOp) (p : Nat)
    (hs : op.isSafeOp = true) (hwf : WF st)
    (hadm : 0 < activeAdminCount st p) :
    0 < activeAdminCount (applyOp st op) p := by
  obtain ⟨hnd, _⟩ := hwf
  rw [activeAdminCount_eq_countP] at hadm ⊢
  cases op with
  | invite a pid e r pe =>
    rcases inviteMember_result st a pid e r pe with h | ⟨uid, h⟩
    · show 0 < ((inviteMember st a pid e r pe).2.members.countP (adminP p))
      rw [h]; exact hadm
    · show 0 < ((inviteMember st a pid e r pe).2.members.countP (adminP p))
      rw [h]
      simp only [List.countP_append]
      omega
  | acceptOp i a =>
    rcases acceptInvite_result st i a with h | h
    · show 0 < ((acceptInvite st i a).2.members.countP (adminP p))
      rw [h]; exact hadm
    · show 0 < ((acceptInvite st i a).2.members.countP (adminP p))
      rw [h]
      refine lt_of_lt_of_le hadm ?_
      show st.members.countP (adminP p) ≤ (st.members.map _).countP (adminP p)
      rw [List.countP_map]
      apply List.countP_mono_left
      intro m _ hp2
      by_cases hb : (m.id == i) = true
      · simp only [Function.comp]
        rw [if_pos hb]
        simp only [adminP, Bool.and_eq_true, beq_iff_eq] at hp2 ⊢
        exact ⟨hp2.1, by simp⟩
      · simp only [Function.comp]
        rw [if_neg hb]
        exact hp2
  | declineOp i a =>
    rcases declineInvite_result st i a with h | ⟨fr, hfind, h⟩
    · show 0 < ((declineInvite st i a).2.members.countP (adminP p))
      rw [h]; exact hadm
    · show 0 < ((declineInvite st i a).2.members.countP (adminP p))
      rw [h]
      show 0 < (st.members.filter _).countP (adminP p)
      rw [List.countP_filter]
      have hfr := List.find?_some hfind
      have hfrmem := List.mem_of_find?_eq_some hfind
      have hfrid : fr.id = i := by
        simp only [Bool.and_eq_true, beq_iff_eq] at hfr
        exact hfr.1.1
      have hfrpend : fr.status = MemberStatus.pending := by
        simp only [Bool.and_eq_true, beq_iff_eq] at hfr
        exact hfr.2
      have hmp : ¬adminP p fr = true := by
        simp [adminP, hfrpend]
      rw [countP_adminP_erase_ne st.members p i fr hnd hfrmem hfrid hmp]
      exact hadm
  | removeOp mId a =>
    rcases removeMember_result st mId a with h | ⟨member, hfind, hguard, h⟩
    · show 0 < ((removeMember st mId a).2.members.countP (adminP p))
      rw [h]; exact hadm
    · show 0 < ((removeMember st mId a).2.members.countP (adminP p))
      rw [h]
      show 0 < (st.members.filter _).countP (adminP p)
      rw [List.countP_filter]
      have hmem := List.mem_of_find?_eq_some hfind
      have hmid : member.id = mId := by simpa using List.find?_some hfind
      by_cases hmp : adminP p member = true
      · have hparts : member.parent_id = p ∧ member.role = Role.admin := by
          simp only [adminP, Bool.and_eq_true, beq_iff_eq] at hmp
          exact ⟨hmp.1.1, hmp.1.2⟩
        have hcount : st.members.countP (adminP p) ≠ 1 := by
          have := hguard hparts.2
          rw [hparts.1] at this
          simpa [activeAdmins, List.countP_eq_length_filter] using this
        exact countP_adminP_erase_pos st.members p mId member hnd hmem hmid hmp hcount
      · rw [countP_adminP_erase_ne st.members p mId member hnd hmem hmid hmp]
        exact hadm
  | updateOp m a r pe => simp [MemberOp.isSafeOp] at hs
  | transferOp m a => simp [MemberOp.isSafeOp] at hs

/-- Claim C2, amended.  Once a care-recipient has an active admin
membership, it keeps at least one across any sequence of invite,
accept, decline and remove operations (the last-admin guard protects
removals; the other three never demote an admin).  The two remaining
operations are excluded because they can rewrite roles in place:
transfer-admin targeting the actor's own membership demotes it after
promoting it (the counterexample), and update-permissions on behalf of
a non-active admin can demote the last active admin. -/
theorem active_admin_invariant_safe_ops (st : FamilyState) (p : Nat) (ops : List MemberOp)
    (hwf : WF st) (hsafe : ∀ op ∈ ops, op.isSafeOp = true)
    (hadm : 0 < activeAdminCount st p) :
    0 < activeAdminCount (applyOps st ops) p := by
  induction ops generalizing st with
  | nil => simpa [applyOps] using hadm
  | cons op rest ih =>
    have hs1 : op.isSafeOp = true := hsafe op (List.mem_cons_self _ _)
    have hwf1 := wf_applyOp_safe st op hs1 hwf
    have hadm1 := adminCount_applyOp_safe st op p hs1 hwf hadm
    have hrest : ∀ o ∈ rest, o.isSafeOp = true := fun o ho =>
      hsafe o (List.mem_cons_of_mem _ ho)
    simpa [applyOps, List.foldl_cons] using ih (applyOp st op) hwf1 hrest hadm1

/-- Witness for C2 (amended): starting from `stSole`, an invite, an
accept and a removal of the accepted member leave the recipient with a
positive active-admin count. -/
theorem active_admin_invariant_safe_ops_witness :
    WF stSole ∧
    (∀ op ∈ ([.invite 100 1 "a@x.com" .editor none, .acceptOp 2 100, .removeOp 2 100] :
      List MemberOp), op.isSafeOp = true) ∧
    0 < activeAdminCount stSole 1 ∧
    0 < activeAdminCount
      (applyOps stSole [.invite 100 1 "a@x.com" .editor none, .acceptOp 2 100, .removeOp 2 100]) 1 :=
  ⟨⟨by decide, by decide⟩, by decide, by decide,
    active_admin_invariant_safe_ops stSole 1
      [.invite 100 1 "a@x.com" .editor none, .acceptOp 2 100, .removeOp 2 100]
      ⟨by decide, by decide⟩ (by decide) (by decide)⟩

/-! ## Exact notification counts of the medication reminder scan -/

theorem sum_map_ite_count {α : Type} [BEq α] (l : List α) (t : α) (c : Nat) :
    (l.map fun x => if x == t then c else 0).sum = l.countP (fun x => x == t) * c := by
  induction l with
  | nil => simp
  | cons x xs ih =>
    by_cases hx : (x == t) = true
    · simp [hx, ih, List.countP_cons]
      ring
    · simp [hx, ih, List.countP_cons]

/-- Count of the notes a single medication contributes that address
user `u` with scheduled time `t`: the member count of its recipient
when `t` matches the firing condition, zero otherwise. -/
theorem countP_medNotes_self (fams : List FamilyMember) (h m : Nat)
    (med : Medication) (t : String) (u : Nat)
    (htone : med.times.countP (fun x => x == t) = 1) :
    (medNotes fams h m med).countP
        (fun n => n.user_id == u && n.medication_id == med.id && n.scheduled_time == t) =
      if timeMatches t h m then
        (fams.filter fun fm => fm.parent_id == med.parent_id).countP
          (fun fm => fm.user_id == u)
      else 0 := by
  unfold medNotes
  rw [List.countP_flatMap]
  have hcontrib : ∀ t',
      (famNotes fams med t').countP
          (fun n => n.user_id == u && n.medication_id == med.id && n.scheduled_time == t) =
        if t' == t then
          (fams.filter fun fm => fm.parent_id == med.parent_id).countP
            (fun fm => fm.user_id == u)
        else 0 := by
    intro t'
    unfold famNotes
    rw [List.countP_map]
    by_cases ht' : (t' == t) = true
    · rw [if_pos ht']
      apply List.countP_congr
      intro fm _
      simp only [Function.comp]
      have : t' = t := by simpa using ht'
      simp [this]
    · rw [if_neg ht']
      apply List.countP_eq_zero.mpr
      intro fm _
      simp only [Function.comp]
      simp only [Bool.and_eq_true, beq_iff_eq]
      rintro ⟨-, hts⟩
      exact absurd (by simpa using hts : (t' == t) = true) ht'
  have hmapeq : (med.times.filter fun x => timeMatches x h m).map
        ((fun l => List.countP
          (fun n => n.user_id == u && n.medication_id == med.id && n.scheduled_time == t) l) ∘
          famNotes fams med) =
      (med.times.filter fun x => timeMatches x h m).map
        (fun t' => if t' == t then
          (fams.filter fun fm => fm.parent_id == med.parent_id).countP
            (fun fm => fm.user_id == u)
         else 0) :=
    List.map_congr_left fun t' _ => hcontrib t'
  rw [show (List.countP
      (fun n => n.user_id == u && n.medication_id == med.id && n.scheduled_time == t)) ∘
      famNotes fams med =
      ((fun l => List.countP
        (fun n => n.user_id == u && n.medication_id == med.id && n.scheduled_time == t) l) ∘
        famNotes fams med) from rfl]
  rw [hmapeq, sum_map_ite_count]
  rw [List.countP_filter]
  by_cases hmatch : timeMatches t h m = true
  · rw [if_pos hmatch]
    have : med.times.countP (fun x => (x == t) && timeMatches x h m) =
        med.times.countP (fun x => x == t) := by
      apply List.countP_congr
      intro x _
      constructor
      · intro hx
        exact (by simpa using hx : (x = t) ∧ _).1 ▸ (by simp [(by simpa using hx :
          (x = t) ∧ timeMatches x h m = true).1])
      · intro hx
        have hxt : x = t := by simpa using hx
        simp [hxt, hmatch]
    rw [this, htone, one_mul]
  · rw [if_neg hmatch]
    have : med.times.countP (fun x => (x == t) && timeMatches x h m) = 0 := by
      apply List.countP_eq_zero.mpr
      intro x _
      simp only [Bool.and_eq_true, beq_iff_eq]
      rintro ⟨rfl, hmx⟩
      exact hmatch hmx
    rw [this, Nat.zero_mul]

/-- A medication with a different id contributes no note counted for
`med.id`. -/
theorem countP_medNotes_other (fams : List FamilyMember) (h m : Nat)
    (med' : Medication) (t : String) (u medId : Nat) (hne : ¬(med'.id = medId)) :
    (medNotes fams h m med').countP
        (fun n => n.user_id == u && n.medication_id == medId && n.scheduled_time == t) = 0 := by
  apply List.countP_eq_zero.mpr
  intro n hn
  unfold medNotes famNotes at hn
  rcases List.mem_flatMap.mp hn with ⟨t', _, hn2⟩
  rcases List.mem_map.mp hn2 with ⟨fm, _, rfl⟩
  simp [hne]

theorem countP_scan_single (fams : List FamilyMember) (h m : Nat)
    (med : Medication) (t : String) (u : Nat) (meds : List Medication)
    (hmed : med ∈ meds) (hone : meds.countP (fun x => x.id == med.id) = 1)
    (hact : med.is_active = true) :
    ((meds.filter (·.is_active)).flatMap (medNotes fams h m)).countP
        (fun n => n.user_id == u && n.medication_id == med.id && n.scheduled_time == t) =
      (medNotes fams h m med).countP
        (fun n => n.user_id == u && n.medication_id == med.id && n.scheduled_time == t) := by
  induction meds with
  | nil => exact absurd hmed (List.not_mem_nil _)
  | cons x xs ih =>
    rw [List.countP_cons] at hone
    by_cases hx : (x.id == med.id) = true
    · rw [if_pos hx] at hone
      have hzero : xs.countP (fun y => y.id == med.id) = 0 := by omega
      have hnot : ∀ y ∈ xs, ¬(y.id = med.id) := by
        intro y hy hcontra
        have := List.countP_eq_zero.mp hzero y hy
        simp [hcontra] at this
      have hmedx : med = x := by
        rcases List.mem_cons.mp hmed with hrfl | hmem2
        · exact hrfl
        · exact absurd rfl (hnot med hmem2)
      subst hmedx
      have hrest : List.countP
          (fun n => n.user_id == u && n.medication_id == med.id && n.scheduled_time == t)
          ((xs.filter (·.is_active)).flatMap (medNotes fams h m)) = 0 := by
        apply List.countP_eq_zero.mpr
        intro n hn
        rcases List.mem_flatMap.mp hn with ⟨med', hmed', hn2⟩
        have hne := hnot med' (List.mem_of_mem_filter hmed')
        have := List.countP_eq_zero.mp
          (countP_medNotes_other fams h m med' t u med.id hne) n hn2
        exact this
      rw [List.filter_cons, if_pos (by simpa using hact)]
      rw [List.flatMap_cons, List.countP_append, hrest]
      omega
    · rw [if_neg hx] at hone
      have hmem2 : med ∈ xs := by
        rcases List.mem_cons.mp hmed with hrfl | hmem2
        · exact absurd (by rw [hrfl]; simp) hx
        · exact hmem2
      have hih := ih hmem2 (by omega)
      rw [List.filter_cons]
      by_cases hxa : x.is_active = true
      · rw [if_pos (by simpa using hxa), List.flatMap_cons, List.countP_append]
        have hxzero := countP_medNotes_other fams h m x t u med.id
          (fun hcontra => hx (by simp [hcontra]))
        rw [hxzero, hih]
        omega
      · rw [if_neg (by simpa using hxa)]
        exact hih

/-- Claim C1, amended.  The firing condition of the medication
reminder scan is same-hour and exactly five minutes ahead:
`scheduledHour = currentHour` and `scheduledMinute - currentMinute = 5`
over the integers.  When it holds, the scan generates exactly one
notification per family-member row of the recipient (the member query
does not filter on status, so in particular one per active member);
when it does not hold — including at `07:54`, `07:56`, and the claim's
own example `07:55` for a schedule of `08:00`, whose hours differ, and
`23:57` for `00:02` — it generates none. -/
theorem medication_scan_same_hour_exact_count
    (meds : List Medication) (fams : List FamilyMember) (h m : Nat)
    (med : Medication) (t : String) (u : Nat)
    (hmed : med ∈ meds) (hone : meds.countP (fun x => x.id == med.id) = 1)
    (htone : med.times.countP (fun x => x == t) = 1)
    (hact : med.is_active = true) :
    ((sendMedicationReminders meds fams h m).countP
        (fun n => n.user_id == u && n.medication_id == med.id && n.scheduled_time == t)) =
      (if timeMatches t h m then
        (fams.filter fun fm => fm.parent_id == med.parent_id).countP
          (fun fm => fm.user_id == u)
       else 0) ∧
    timeMatches "08:05" 8 0 = true ∧
    timeMatches "08:00" 7 55 = false ∧
    timeMatches "08:00" 7 54 = false ∧
    timeMatches "08:00" 7 56 = false ∧
    timeMatches "00:02" 23 57 = false := by
  refine ⟨?_, by decide, by decide, by decide, by decide, by decide⟩
  show ((meds.filter (·.is_active)).flatMap (medNotes fams h m)).countP _ = _
  rw [countP_scan_single fams h m med t u meds hmed hone hact]
  exact countP_medNotes_self fams h m med t u htone

/-- Witness for C1 (amended): a medication scheduled at `08:05`
scanned at `08:00` yields exactly one notification for the single
member of `famsOne`. -/
theorem medication_scan_same_hour_exact_count_witness :
    (⟨1, 1, "L", "50mg", true, ["08:05"]⟩ : Medication) ∈
      ([⟨1, 1, "L", "50mg", true, ["08:05"]⟩] : List Medication) ∧
    (((sendMedicationReminders [⟨1, 1, "L", "50mg", true, ["08:05"]⟩] famsOne 8 0).countP
        (fun n => n.user_id == 100 && n.medication_id == 1 && n.scheduled_time == "08:05")) =
      (if timeMatches "08:05" 8 0 then
        (famsOne.filter fun fm => fm.parent_id == 1).countP (fun fm => fm.user_id == 100)
       else 0) ∧
     timeMatches "08:05" 8 0 = true ∧
     timeMatches "08:00" 7 55 = false ∧
     timeMatches "08:00" 7 54 = false ∧
     timeMatches "08:00" 7 56 = false ∧
     timeMatches "00:02" 23 57 = false) :=
  ⟨by decide,
    medication_scan_same_hour_exact_count
      [⟨1, 1, "L", "50mg", true, ["08:05"]⟩] famsOne 8 0
      ⟨1, 1, "L", "50mg", true, ["08:05"]⟩ "08:05" 100
      (by decide) (by decide) (by decide) (by decide)⟩

end HealthCare
